import Mathlib

/-!
Verification of the Transformer-CNN LRP implementation (ochem.py).

The numeric engines of the source operate on numpy float arrays.  The
embedding below models tensors as lists of exact rationals; the
transcendental primitives (exp, sin, cos) that cannot be represented in
the rationals are abstracted as function parameters, and the floating
NaN value is modelled by the `none` case of `Option` with
NaN-propagating arithmetic.  Every definition mirrors the corresponding
lines of ochem.py, cited in the doc comments.
-/

namespace TransformerCNN

/-- Value of a rational vector at an index, 0 outside (numpy 1-D access). -/
def getQ (l : List ℚ) (i : ℕ) : ℚ := l.getD i 0

/-- Value of a row-major rational matrix at (i, j), 0 outside. -/
def entry (m : List (List ℚ)) (i j : ℕ) : ℚ := (m.getD i []).getD j 0

/-- np.sum over a whole matrix. -/
def matSum (m : List (List ℚ)) : ℚ := (m.map List.sum).sum

/-- The epsilon added to denominators in calcLRPDenseInner (ochem.py line 75). -/
def epsLRP : ℚ := 1 / 10 ^ 32

/-- The large denominator substituted for exact zeros in calcLRPAddition
(ochem.py line 85). -/
def denomSub : ℚ := 10 ^ 32

/-- Row-weighted sum np.sum(zij, axis=1) of calcLRPDenseOut (ochem.py line 62):
for output unit j, the sum over inputs i of w0[i][j] * l_previous[i]. -/
def rowWeightedSum (l_previous : List ℚ) (w0 : List (List ℚ)) (j : ℕ) : ℚ :=
  ((List.range l_previous.length).map (fun i => entry w0 i j * getQ l_previous i)).sum

/-- calcLRPDenseOut (ochem.py lines 60-64): zij[j][i] = w0[i][j] * l_prev[i],
each row j divided by (row sum + bias j), then R = l_next . zij.  The bias
vector broadcasts per output unit, as in the single-output use at line 518. -/
def calcLRPDenseOut (l_previous : List ℚ) (w0 : List (List ℚ)) (w1 : List ℚ)
    (l_next : List ℚ) : List ℚ :=
  (List.range l_previous.length).map (fun i =>
    ((List.range l_next.length).map (fun j =>
      getQ l_next j *
        (entry w0 i j * getQ l_previous i / (rowWeightedSum l_previous w0 j + getQ w1 j)))).sum)

/-- calcLRPDenseInner (ochem.py lines 67-78): zij[i][j] = l_prev[i] * w0[i][j],
z[j] = column sum + bias + 1e-32, R[i] = sum over j of l_next[j] * zij[i][j] / z[j]. -/
def calcLRPDenseInner (l_previous : List ℚ) (w0 : List (List ℚ)) (w1 : List ℚ)
    (l_next : List ℚ) : List ℚ :=
  (List.range l_previous.length).map (fun i =>
    ((List.range l_next.length).map (fun j =>
      getQ l_next j *
        (getQ l_previous i * entry w0 i j /
          (((List.range l_previous.length).map (fun i2 => getQ l_previous i2 * entry w0 i2 j)).sum
            + getQ w1 j + epsLRP)))).sum)

/-- calcLRPAddition (ochem.py lines 81-92): the zero entries of l_sum are
replaced by 1e32, f = l_first / result, r_first = R * f, r_second = R - r_first. -/
def calcLRPAddition (l_first l_second l_sum R : List ℚ) : List ℚ × List ℚ :=
  let result := l_sum.map (fun v => if v = 0 then denomSub else v)
  let f := List.zipWith (· / ·) l_first result
  let r_first := List.zipWith (· * ·) R f
  (r_first, List.zipWith (· - ·) R r_first)

/-- calcLRPPool (ochem.py lines 95-100): a zero matrix with l_embed.shape[0]
rows and one column per pooled channel, where cell (inds[i], i) holds R[i]. -/
def calcLRPPool (numRows : ℕ) (inds : List ℕ) (R : List ℚ) : List (List ℚ) :=
  (List.range numRows).map (fun r =>
    (List.range inds.length).map (fun i => if inds.getD i 0 = r then getQ R i else 0))

/-- Sum of column i of the de-pooled matrix (the relevance a channel spreads
over positions). -/
def poolColSum (numRows : ℕ) (inds : List ℕ) (R : List ℚ) (i : ℕ) : ℚ :=
  ((calcLRPPool numRows inds R).map (fun row => row.getD i 0)).sum

/-- Fuel-bounded chunking of a flat list into rows of the given width
(np.reshape with an inferred dimension). -/
def chunkAux : ℕ → ℕ → List ℚ → List (List ℚ)
  | 0, _, _ => []
  | _ + 1, _, [] => []
  | fuel + 1, width, l => l.take width :: chunkAux fuel width (l.drop width)

/-- np.reshape of a flat list into rows of length width. -/
def chunkRows (width : ℕ) (l : List ℚ) : List (List ℚ) := chunkAux l.length width l

/-- In-place slice update y[i:i+len(zm)] += zm of ochem.py line 123. -/
def addRowsAt (y : List (List ℚ)) (i stride : ℕ) (zm : List (List ℚ)) : List (List ℚ) :=
  y.take i ++
    List.zipWith (fun a b => List.zipWith (· + ·) a b) ((y.drop i).take stride) zm ++
    y.drop (i + stride)

/-- The overlap-accumulation loop of calcLRPConvStride (ochem.py lines 114-123):
w reshaped to (-1, C) with C = l_out.shape[1]; for i in
range(rows - stride - 1) the window relevance l_out[i] is un-flattened by the
inner dense rule over the flattened window l_prev[i:i+stride] and added into
y[i:i+stride].  Note the loop bound of the source: rows - stride - 1. -/
def convStrideAccum (l_prev : List (List ℚ)) (w0 : List (List ℚ)) (w1 : List ℚ)
    (l_out : List (List ℚ)) (stride : ℕ) : List (List ℚ) :=
  let C := (l_out.headD []).length
  let wflat := chunkRows C w0.flatten
  let y0 := l_prev.map (fun row => row.map (fun _ => (0 : ℚ)))
  (List.range (l_prev.length - stride - 1)).foldl
    (fun y i =>
      let x := ((l_prev.drop i).take stride).flatten
      let zr := calcLRPDenseInner x wflat w1 (l_out.getD i [])
      addRowsAt y i stride (chunkRows (zr.length / stride) zr))
    y0

/-- calcLRPConvStride (ochem.py lines 113-127): overlap accumulation followed
by the rescale y / s * np.sum(l_out) with s = np.sum(y). -/
def calcLRPConvStride (l_prev : List (List ℚ)) (w0 : List (List ℚ)) (w1 : List ℚ)
    (l_out : List (List ℚ)) (stride : ℕ) : List (List ℚ) :=
  let y := convStrideAccum l_prev w0 w1 l_out stride
  let s := matSum y
  y.map (fun row => row.map (fun v => v / s * matSum l_out))

/-- The fixed vocabulary string of ochem.py line 26. -/
def chars : List Char := " ^#%()+-./0123456789=@ABCDEFGHIKLMNOPRSTVXYZ[\\]abcdefgilmnoprstuy$".toList

/-- char_to_ix lookup (ochem.py line 28): index of the character in the
vocabulary, none when absent (the KeyError of line 146). -/
def charToIx (c : Char) : Option ℕ := chars.findIdx? (fun x => x == c)

/-- Number of padding positions: CONV_OFFSET (ochem.py line 23). -/
def CONV_OFFSET : ℕ := 20

/-- EMBEDDING_SIZE (ochem.py line 21). -/
def EMBEDDING_SIZE : ℕ := 64

/-- The token index array x of ochem.py lines 144-146: the tokenized indices
followed by CONV_OFFSET zero entries (np.zeros pre-fill). -/
def xIndices (toks : List ℕ) : List ℕ := toks ++ List.replicate CONV_OFFSET 0

/-- Row j of the positional-encoding matrix (ochem.py lines 149-155).  The
sinusoid values sin/cos((j+1) / 10000 ^ (i/64)) are irrational, so the
written entries are abstracted by the parameter pe; rows j >= N are never
written by the loop and stay zero. -/
def posRow (pe : ℕ → ℕ → ℚ) (N j : ℕ) : List ℚ :=
  (List.range EMBEDDING_SIZE).map (fun i => if j < N then pe j i else 0)

/-- Row i of smiles_embed (ochem.py lines 163-166): embed[x[i]] + pos[i]. -/
def smilesEmbedRow (embed : List (List ℚ)) (pe : ℕ → ℕ → ℚ) (toks : List ℕ)
    (N i : ℕ) : List ℚ :=
  List.zipWith (· + ·) (embed.getD ((xIndices toks).getD i 0) []) (posRow pe N i)

/-- The error raised by the vocabulary lookup of ochem.py line 146. -/
def vocabMsg : String := "vocabulary error: character not in alphabet"

/-- Tokenization loop of ochem.py lines 144-146: each character is mapped
through char_to_ix; the first unknown character raises. -/
def encodeTokens : List Char → Except String (List ℕ)
  | [] => .ok []
  | c :: rest =>
    match charToIx c with
    | none => .error vocabMsg
    | some i =>
      match encodeTokens rest with
      | .error e => .error e
      | .ok xs => .ok (i :: xs)

/-- The front of calcQSAR (ochem.py lines 144-166): tokenization strictly
first, then the embedding tensor; an unknown character raises before any
arithmetic touches the embedding weights. -/
def forwardFront (pe : ℕ → ℕ → ℚ) (embed : List (List ℚ)) (mol : List Char) :
    Except String (List (List ℚ)) :=
  match encodeTokens mol with
  | .error e => .error e
  | .ok toks =>
    .ok ((List.range (toks.length + CONV_OFFSET)).map
      (fun i => smilesEmbedRow embed pe toks toks.length i))

/-- True when the forward front failed (error branch of the Except). -/
def isVocabFailure (e : Except String (List (List ℚ))) : Bool :=
  match e with
  | .error _ => true
  | .ok _ => false

/-- Mask entry of ochem.py lines 157-159: columns below N are 1, the padding
columns are 0, for every row. -/
def leftMaskEntry (N j : ℕ) : ℚ := if j < N then 1 else 0

/-- Raw attention score (ochem.py line 182): dot(q_i, k_j) / sqrt(EMBEDDING_SIZE);
np.sqrt(64) = 8 exactly. -/
def attnScore (q k : List (List ℚ)) (i j : ℕ) : ℚ :=
  (List.zipWith (· * ·) (q.getD i []) (k.getD j [])).sum / 8

/-- Masked exponentiated score (ochem.py line 183): np.exp(a) * left_mask,
with exp abstracted by expf. -/
def attnMasked (expf : ℚ → ℚ) (q k : List (List ℚ)) (N i j : ℕ) : ℚ :=
  expf (attnScore q k i j) * leftMaskEntry N j

/-- Row-normalized attention weight (ochem.py lines 185-186): each row is
divided by its sum over all NN columns. -/
def attnWeight (expf : ℚ → ℚ) (q k : List (List ℚ)) (N NN i j : ℕ) : ℚ :=
  attnMasked expf q k N i j /
    ((List.range NN).map (fun j2 => attnMasked expf q k N i j2)).sum

/-- Pre-pooling rows of the width-1 convolution (ochem.py lines 349-350):
relu(dot(l_embed, W) + b), computed for every one of the NN positions,
padding rows included. -/
def conv1Rows (l_embed W : List (List ℚ)) (b : List ℚ) : List (List ℚ) :=
  l_embed.map (fun x =>
    (List.range (W.headD []).length).map (fun j =>
      let v := ((List.range W.length).map (fun i2 => getQ x i2 * entry W i2 j)).sum + getQ b j
      if v < 0 then 0 else v))

/-- Max-over-position pooling np.max(lc_1, axis=0) (ochem.py line 352),
taken over all NN rows. -/
def conv1Pool (l_embed W : List (List ℚ)) (b : List ℚ) : List ℚ :=
  (List.range (W.headD []).length).map (fun j =>
    let col := (conv1Rows l_embed W b).map (fun r => r.getD j 0)
    col.foldl max (col.headD 0))

/-- NaN-propagating addition on Option-coded floats (none is NaN). -/
def nadd : Option ℚ → Option ℚ → Option ℚ
  | some a, some b => some (a + b)
  | _, _ => none

/-- NaN-propagating multiplication on Option-coded floats. -/
def nmul : Option ℚ → Option ℚ → Option ℚ
  | some a, some b => some (a * b)
  | _, _ => none

/-- NaN-propagating dot product. -/
def ndot (x y : List (Option ℚ)) : Option ℚ :=
  (List.zipWith nmul x y).foldl nadd (some 0)

/-- NaN-propagating np.sum. -/
def nsum (x : List (Option ℚ)) : Option ℚ := x.foldl nadd (some 0)

/-- The output layer of ochem.py line 499: l_out = dot(l_highway, w) + b,
over NaN-propagating scalars. -/
def outLayer (l_highway : List (Option ℚ)) (w : List (List (Option ℚ)))
    (b : List (Option ℚ)) : List (Option ℚ) :=
  (List.range (w.headD []).length).map (fun j =>
    nadd (ndot l_highway (w.map (fun row => row.getD j none))) (b.getD j none))

/-- The value calcQSAR returns on the doLrp=False path (ochem.py lines
499-513, regression branch): the post-transform t (the denotation of
eval(info[2]) as a function of result) applied to l_out[0], returned with
no NaN check of any kind. -/
def calcQSARReturnNoLrp (t : Option ℚ → Option ℚ) (l_highway : List (Option ℚ))
    (w : List (List (Option ℚ))) (b : List (Option ℚ)) : Option ℚ :=
  t ((outLayer l_highway w b).getD 0 none)

/-- Python round(s, 7) of ochem.py line 51, NaN-preserving.  The tie-breaking
convention is irrelevant to the properties below. -/
def round7 : Option ℚ → Option ℚ
  | some q => some (((round (q * 10 ^ 7) : ℤ) : ℚ) / 10 ^ 7)
  | none => none

/-- The NaN branch of LRPCheck (ochem.py lines 42-54): s = round(np.sum(x), 7);
the process exits when s is NaN.  Returns true exactly when the exit fires. -/
def lrpCheckExit (x : List (Option ℚ)) : Bool := (round7 (nsum x)).isNone

/-- Identity on Option-coded floats (the post-transform string "result"). -/
def idOptQ : Option ℚ → Option ℚ := fun v => v

/-- The task-type branch of ochem.py lines 503-504: sigmoid for
classification, identity otherwise, with exp abstracted by expf. -/
def classifyHead (expf : ℚ → ℚ) (taskType : String) (x : ℚ) : ℚ :=
  if taskType = "classification" then 1 / (1 + expf (-x)) else x

/-- The post-transform application of ochem.py lines 506-507:
result = l_out[0]; l_out[0] = eval(info[2]).  The eval of the stored
expression string denotes an arbitrary function t of result. -/
def outputPostTransform (t : ℚ → ℚ) (result : ℚ) : ℚ := t result

/-- The reported score: task-type branch then the stored post-transform. -/
def finalScore (expf : ℚ → ℚ) (taskType : String) (t : ℚ → ℚ) (raw : ℚ) : ℚ :=
  outputPostTransform t (classifyHead expf taskType raw)

/-- A constant stand-in for the abstracted exp in concrete instances. -/
def expfConst : ℚ → ℚ := fun _ => 1

/-- A constant stand-in for the abstracted sinusoid in concrete instances. -/
def peConst : ℕ → ℕ → ℚ := fun _ _ => 1

/-- The identity post-transform (stored expression "result"). -/
def idT : ℚ → ℚ := fun v => v

/-- A negating post-transform (stored expression "-result"). -/
def negT : ℚ → ℚ := fun v => -v

end TransformerCNN

namespace TransformerCNN

/-- Sum of a range-indexed list map as a Finset sum. -/
lemma sum_map_range (n : ℕ) (f : ℕ → ℚ) :
    ((List.range n).map f).sum = ∑ j ∈ Finset.range n, f j := by
  induction n with
  | zero => simp
  | succ n ih =>
    rw [List.range_succ, List.map_append, List.sum_append, Finset.sum_range_succ, ih]
    simp

/-- The sum of a list as a Finset sum of its getD values. -/
lemma listSum_getD (l : List ℚ) : l.sum = ∑ j ∈ Finset.range l.length, getQ l j := by
  induction l with
  | nil => simp
  | cons a t ih =>
    rw [List.sum_cons, List.length_cons, Finset.sum_range_succ']
    simp only [getQ, List.getD_cons_succ, List.getD_cons_zero]
    rw [show t.sum = ∑ j ∈ Finset.range t.length, t.getD j 0 from ih]
    exact add_comm _ _

/-- getD of a mapped range list inside the bound. -/
lemma getD_map_range {β : Type} (f : ℕ → β) (d : β) {n i : ℕ} (hi : i < n) :
    ((List.range n).map f).getD i d = f i := by
  rw [List.getD_eq_getElem?_getD, List.getElem?_map, List.getElem?_range hi]
  rfl

/-- Scaling every element of a list by a common division and factor scales its sum. -/
lemma sum_map_div_mul (l : List ℚ) (s T : ℚ) :
    (l.map (fun v => v / s * T)).sum = l.sum / s * T := by
  induction l with
  | nil => simp
  | cons a t ih =>
    simp only [List.map_cons, List.sum_cons, ih]
    ring

/-- Scaling every matrix element by a common division and factor scales matSum. -/
lemma matSum_map_scale (m : List (List ℚ)) (s T : ℚ) :
    matSum (m.map (fun row => row.map (fun v => v / s * T))) = matSum m / s * T := by
  induction m with
  | nil => simp [matSum]
  | cons r t ih =>
    simp only [List.map_cons, matSum, List.sum_cons] at *
    rw [sum_map_div_mul, ih]
    ring

/-- Adding a zero list of matching length elementwise is the identity. -/
lemma zipWith_add_replicate (l : List ℚ) :
    List.zipWith (· + ·) l (List.replicate l.length 0) = l := by
  induction l with
  | nil => rfl
  | cons a t ih => simp [List.replicate_succ, ih]

/-- Elementwise a + (b - a) recovers b on lists of equal length. -/
lemma zipWith_add_sub (R r1 : List ℚ) (h : r1.length = R.length) :
    List.zipWith (· + ·) r1 (List.zipWith (· - ·) R r1) = R := by
  induction R generalizing r1 with
  | nil =>
    cases r1 with
    | nil => rfl
    | cons b t => simp at h
  | cons a R ih =>
    cases r1 with
    | nil => simp at h
    | cons b t =>
      rw [List.zipWith_cons_cons, List.zipWith_cons_cons, ih t (by simpa using h)]
      congr 1
      ring

/-- A mapped constant zero over a range is a replicate. -/
lemma map_const_zero_range (n : ℕ) :
    (List.range n).map (fun _ => (0 : ℚ)) = List.replicate n 0 := by
  induction n with
  | zero => rfl
  | succ n ih =>
    rw [List.range_succ, List.map_append, ih, List.replicate_succ']
    rfl

/-- getD into a replicate of zeros is zero. -/
lemma getD_replicate_zero (n m : ℕ) : (List.replicate n (0 : ℕ)).getD m 0 = 0 := by
  induction n generalizing m with
  | zero => rfl
  | succ n ih =>
    cases m with
    | zero => rfl
    | succ m => exact ih m

/-- Folding NaN-propagating addition from a NaN accumulator stays NaN. -/
lemma foldl_nadd_none (x : List (Option ℚ)) : x.foldl nadd none = none := by
  induction x with
  | nil => rfl
  | cons a t ih =>
    have h : nadd none a = none := by cases a <;> rfl
    simp [List.foldl_cons, h, ih]

/-- A NaN anywhere in the list makes the NaN-propagating fold NaN. -/
lemma foldl_nadd_of_mem_none (x : List (Option ℚ)) (acc : Option ℚ) (hx : none ∈ x) :
    x.foldl nadd acc = none := by
  induction x generalizing acc with
  | nil => cases hx
  | cons a t ih =>
    rcases List.mem_cons.1 hx with h1 | h2
    · rw [List.foldl_cons, ← h1]
      have h : nadd acc none = none := by cases acc <;> rfl
      rw [h, foldl_nadd_none]
    · rw [List.foldl_cons]
      exact ih _ h2

/-- A character missing from the vocabulary makes the tokenization loop raise. -/
lemma encodeTokens_error (mol : List Char) (c : Char) (hc : c ∈ mol)
    (hx : charToIx c = none) : encodeTokens mol = Except.error vocabMsg := by
  induction mol with
  | nil => cases hc
  | cons a rest ih =>
    rw [encodeTokens]
    cases h : charToIx a with
    | none => rfl
    | some i =>
      have hcr : c ∈ rest := by
        rcases List.mem_cons.1 hc with h1 | h2
        · rw [h1, h] at hx
          exact Option.noConfusion hx
        · exact h2
      rw [ih hcr]

end TransformerCNN

namespace TransformerCNN

/-- C1 counterexample: the dense backward rule that sets the relevance budget
(calcLRPDenseOut, the first step of the relevance engine) already violates
the 1e-4 relative conservation tolerance when the layer bias is nonzero:
with a single unit, weight 1, bias 1, input 1 and incoming relevance 1, the
redistributed sum is 1/2, a 50 percent relative deviation, so the end-to-end
budget of calcQSAR is not conserved for every weight store. -/
theorem denseOut_conservation_fails :
    ¬ (|(calcLRPDenseOut [1] [[1]] [1] [1]).sum - ([1] : List ℚ).sum|
        ≤ 1 / 10000 * |([1] : List ℚ).sum|) := by
  have h : (calcLRPDenseOut [1] [[1]] [1] [1]).sum = 1 / 2 := by
    norm_num [calcLRPDenseOut, rowWeightedSum, entry, getQ, List.range_succ]
  rw [h]
  have habs : |(1 : ℚ) / 2 - [(1 : ℚ)].sum| = 1 / 2 := by
    norm_num [abs_of_nonpos]
  rw [habs]
  norm_num

/-- C1: conservation of the dense backward rule holds exactly when every bias
entry is zero and every weighted row sum is nonzero; the sum of the
relevance returned by calcLRPDenseOut then equals the sum of the incoming
relevance.  With a nonzero bias the missing share is exactly the bias share
that the LRPCheck diagnostic of the source prints as Bias(%). -/
theorem denseOut_conservation_zero_bias (l_previous : List ℚ) (w0 : List (List ℚ))
    (w1 : List ℚ) (l_next : List ℚ)
    (hb : ∀ j, j < l_next.length → getQ w1 j = 0)
    (hs : ∀ j, j < l_next.length → rowWeightedSum l_previous w0 j ≠ 0) :
    (calcLRPDenseOut l_previous w0 w1 l_next).sum = l_next.sum := by
  have key : (calcLRPDenseOut l_previous w0 w1 l_next).sum
      = ∑ i ∈ Finset.range l_previous.length, ∑ j ∈ Finset.range l_next.length,
          getQ l_next j * (entry w0 i j * getQ l_previous i /
            (rowWeightedSum l_previous w0 j + getQ w1 j)) := by
    rw [calcLRPDenseOut, sum_map_range]
    exact Finset.sum_congr rfl (fun i _ => sum_map_range _ _)
  rw [key, Finset.sum_comm]
  have hterm : ∀ j ∈ Finset.range l_next.length,
      (∑ i ∈ Finset.range l_previous.length,
        getQ l_next j * (entry w0 i j * getQ l_previous i /
          (rowWeightedSum l_previous w0 j + getQ w1 j))) = getQ l_next j := by
    intro j hj
    rw [Finset.mem_range] at hj
    rw [hb j hj, add_zero, ← Finset.mul_sum, ← Finset.sum_div]
    have hrw : (∑ i ∈ Finset.range l_previous.length, entry w0 i j * getQ l_previous i)
        = rowWeightedSum l_previous w0 j := (sum_map_range _ _).symm.trans rfl
    rw [hrw, div_self (hs j hj), mul_one]
  rw [Finset.sum_congr rfl hterm]
  exact (listSum_getD l_next).symm

/-- C1 witness: the zero-bias instance of the conservation theorem at the
counterexample dimensions. -/
theorem denseOut_conservation_zero_bias_witness :
    (calcLRPDenseOut [1] [[1]] [0] [1]).sum = ([1] : List ℚ).sum :=
  denseOut_conservation_zero_bias [1] [[1]] [0] [1]
    (by intro j hj
        have hj0 : j = 0 := by simpa using hj
        subst hj0; norm_num [getQ])
    (by intro j hj
        have hj0 : j = 0 := by simpa using hj
        subst hj0; norm_num [rowWeightedSum, entry, getQ, List.range_succ])

end TransformerCNN

namespace TransformerCNN

/-- C2: max-pool backward exactness.  For any channel i with its recorded
argmax row inside the matrix, the column sum of the de-pooled matrix equals
the incoming relevance of that channel exactly, and every row other than the
recorded argmax row holds exactly zero in that column. -/
theorem calcLRPPool_exact (numRows : ℕ) (inds : List ℕ) (R : List ℚ) (i r : ℕ)
    (hi : i < inds.length) (hr : inds.getD i 0 < numRows) (hne : r ≠ inds.getD i 0) :
    poolColSum numRows inds R i = getQ R i
      ∧ entry (calcLRPPool numRows inds R) r i = 0 := by
  constructor
  · rw [poolColSum, calcLRPPool, List.map_map]
    have hpt : ∀ rr : ℕ,
        ((fun row => row.getD i 0) ∘ fun r2 => (List.range inds.length).map
          (fun i2 => if inds.getD i2 0 = r2 then getQ R i2 else 0)) rr
        = (if inds.getD i 0 = rr then getQ R i else 0) := by
      intro rr
      exact getD_map_range _ _ hi
    rw [List.map_congr_left (fun rr _ => hpt rr), sum_map_range,
      Finset.sum_ite_eq (Finset.range numRows) (inds.getD i 0) (fun _ => getQ R i),
      if_pos (Finset.mem_range.2 hr)]
  · rw [entry, calcLRPPool]
    by_cases hrn : r < numRows
    · rw [getD_map_range _ _ hrn, getD_map_range _ _ hi,
        if_neg (fun h => hne h.symm)]
    · have hrow : ((List.range numRows).map (fun r2 => (List.range inds.length).map
          (fun i2 => if inds.getD i2 0 = r2 then getQ R i2 else 0))).getD r ([] : List ℚ)
          = [] := by
        apply List.getD_eq_default
        simpa using Nat.le_of_not_lt hrn
      rw [hrow]
      rfl

/-- C2 witness: three rows, one channel with argmax row 1 and relevance 5;
the column sums to 5 and row 0 receives zero. -/
theorem calcLRPPool_exact_witness :
    poolColSum 3 [1] [5] 0 = getQ [5] 0 ∧ entry (calcLRPPool 3 [1] [5]) 0 0 = 0 :=
  calcLRPPool_exact 3 [1] [5] 0 0 (by decide) (by decide) (by decide)

/-- C9: the additive-merge backward split never loses or duplicates
relevance: whatever r_first the guarded division produces, the second branch
is defined as R - r_first, so the elementwise sum of the returned pair is
exactly R, including at positions where l_sum is exactly zero. -/
theorem calcLRPAddition_sum_exact (l_first l_second l_sum R : List ℚ)
    (hf : l_first.length = R.length) (hs : l_sum.length = R.length) :
    List.zipWith (· + ·) (calcLRPAddition l_first l_second l_sum R).1
      (calcLRPAddition l_first l_second l_sum R).2 = R := by
  simp only [calcLRPAddition]
  apply zipWith_add_sub
  simp [List.length_zipWith, List.length_map, hf, hs]

/-- C9 witness: a two-position instance whose second l_sum entry is exactly
zero; the split still sums back to R = [3, 4]. -/
theorem calcLRPAddition_sum_exact_witness :
    List.zipWith (· + ·) (calcLRPAddition [1, 0] [9, 9] [2, 0] [3, 4]).1
      (calcLRPAddition [1, 0] [9, 9] [2, 0] [3, 4]).2 = [3, 4] :=
  calcLRPAddition_sum_exact [1, 0] [9, 9] [2, 0] [3, 4] (by decide) (by decide)

/-- C5 counterexample: the forward pass performs no NaN check.  With a NaN
injected into the output-layer weight tensor, calcQSAR (doLrp=False path,
ochem.py lines 499-513) returns the NaN-propagated score rather than
aborting: the reported output is the NaN itself. -/
theorem nan_propagates_to_returned_score :
    calcQSARReturnNoLrp idOptQ [some 1] [[none]] [some 0] = none := rfl

/-- C5: NaN detection exists only in the backward pass: LRPCheck
(ochem.py lines 51-54) rounds the relevance sum and terminates the process
(sys.exit(0)) whenever that sum is NaN; a NaN anywhere in the checked tensor
makes the NaN-propagating sum NaN and fires the exit. -/
theorem lrpcheck_exits_on_nan (x : List (Option ℚ)) (hx : none ∈ x) :
    lrpCheckExit x = true := by
  rw [lrpCheckExit, nsum, foldl_nadd_of_mem_none x _ hx]
  rfl

/-- C5 witness: a two-element relevance tensor with one NaN fires the
LRPCheck exit. -/
theorem lrpcheck_exits_on_nan_witness : lrpCheckExit [some 1, none] = true :=
  lrpcheck_exits_on_nan [some 1, none] (by decide)

end TransformerCNN

namespace TransformerCNN

/-- C3 counterexample: the rescale y / s * sum(l_out) only forces the sums
to agree when the accumulated sum s is nonzero.  With an all-zero activation
matrix the accumulation is zero, s = 0, and the returned relevance sums to 0
while the incoming relevance sums to 1 (numpy produces NaN here from 0/0). -/
theorem convStride_rescale_fails_zero_sum :
    matSum (calcLRPConvStride [[0], [0], [0], [0]] [[1], [1]] [0] [[1], [0], [0]] 2)
      ≠ matSum [[1], [0], [0]] := by
  norm_num [calcLRPConvStride, convStrideAccum, calcLRPDenseInner, chunkRows, chunkAux,
    addRowsAt, matSum, epsLRP, entry, getQ, List.range_succ]

/-- C3: provided the pre-rescale accumulated sum s is nonzero, the final
rescale of calcLRPConvStride makes the sum of the returned relevance equal
the sum of the incoming output relevance exactly, by construction of
y / s * sum(l_out). -/
theorem convStride_rescale_exact (l_prev w0 : List (List ℚ)) (w1 : List ℚ)
    (l_out : List (List ℚ)) (stride : ℕ)
    (hs : matSum (convStrideAccum l_prev w0 w1 l_out stride) ≠ 0) :
    matSum (calcLRPConvStride l_prev w0 w1 l_out stride) = matSum l_out := by
  simp only [calcLRPConvStride]
  rw [matSum_map_scale, div_self hs, one_mul]

/-- C3 witness: a 4-row, stride-2 instance with nonzero accumulation; the
rescaled relevance sums to the incoming total exactly. -/
theorem convStride_rescale_exact_witness :
    matSum (calcLRPConvStride [[1], [1], [1], [1]] [[1], [1]] [0] [[1], [0], [0]] 2)
      = matSum [[1], [0], [0]] :=
  convStride_rescale_exact [[1], [1], [1], [1]] [[1], [1]] [0] [[1], [0], [0]] 2
    (by norm_num [convStrideAccum, calcLRPDenseInner, chunkRows, chunkAux,
      addRowsAt, matSum, epsLRP, entry, getQ, List.range_succ])

/-- C4: the backward loop of calcLRPConvStride iterates
range(rows - stride - 1) while the forward pass produces rows - stride + 1
windows, so the last two window positions are skipped.  At a 4-row, stride-2
instance the valid windows are 0, 1, 2 but the loop runs only for i = 0:
placing all relevance on window 2 yields a zero accumulation, and the
returned relevance is the zero matrix although sum(l_out) = 1. -/
theorem convStride_skips_last_windows :
    calcLRPConvStride [[1], [1], [1], [1]] [[1], [1]] [0] [[0], [0], [1]] 2
        = [[0], [0], [0], [0]]
      ∧ matSum [[0], [0], [1]] = 1
      ∧ List.range (4 - 2 - 1) = [0] := by
  refine ⟨?_, by norm_num [matSum], by decide⟩
  norm_num [calcLRPConvStride, convStrideAccum, calcLRPDenseInner, chunkRows, chunkAux,
    addRowsAt, matSum, epsLRP, entry, getQ, List.range_succ]

/-- C6: the valid-length attention mask is correct: for every padding column
j with N <= j, the masked, row-normalized attention weight is exactly zero,
for every query row, score matrix and abstracted exponential. -/
theorem attn_mask_zeroes_padding (expf : ℚ → ℚ) (q k : List (List ℚ))
    (N NN i j : ℕ) (hj : N ≤ j) : attnWeight expf q k N NN i j = 0 := by
  rw [attnWeight, attnMasked, leftMaskEntry, if_neg (by omega), mul_zero, zero_div]

/-- C6 witness: with N = 1 and NN = 21, the attention weight at the first
padding column is zero. -/
theorem attn_mask_zeroes_padding_witness :
    attnWeight expfConst [[1]] [[1]] 1 21 0 1 = 0 :=
  attn_mask_zeroes_padding expfConst [[1]] [[1]] 1 21 0 1 (by decide)

/-- C6 counterexample: perturbing padding content does change the score
path.  With N = 1 and NN = N + CONV_OFFSET = 21, two embedding matrices that
agree on the single valid row 0 and differ only at padding row 1 produce
different pooled convolution features (ochem.py lines 349-352 pool over all
NN rows, padding included), so the forward score computed from them is not
invariant under padding perturbation. -/
theorem conv_pool_reads_padding :
    (List.replicate 21 ([0] : List ℚ)).getD 0 []
        = (([0] : List ℚ) :: [5] :: List.replicate 19 [0]).getD 0 []
      ∧ conv1Pool (List.replicate 21 [0]) [[1]] [0]
        ≠ conv1Pool (([0] : List ℚ) :: [5] :: List.replicate 19 [0]) [[1]] [0] := by
  refine ⟨rfl, ?_⟩
  norm_num [conv1Pool, conv1Rows, entry, getQ, List.range_succ, List.replicate_succ,
    max_def]

/-- C7 counterexample: the final reported value is eval(info[2]) applied to
the raw result (ochem.py line 507); the stored expression is unrestricted,
so a non-monotone post-transform such as "-result" is reachable: the raw
output increases from 0 to 1 while the reported score strictly decreases. -/
theorem posttransform_not_monotone :
    finalScore idT "regression" negT 1 < finalScore idT "regression" negT 0
      ∧ (0 : ℚ) < 1 := by
  constructor
  · simp only [finalScore, outputPostTransform, classifyHead, negT]
    rw [if_neg (by decide), if_neg (by decide)]
    norm_num
  · norm_num

/-- C7: the task-type branch (ochem.py lines 503-504) is a closed two-case
enumeration selected by the metadata tag: the value entering the
post-transform is either the raw output (regression) or its sigmoid
(classification), before eval(info[2]) is applied. -/
theorem classify_head_enumeration (expf : ℚ → ℚ) (taskType : String) (x : ℚ) :
    classifyHead expf taskType x = x
      ∨ classifyHead expf taskType x = 1 / (1 + expf (-x)) := by
  by_cases h : taskType = "classification"
  · exact Or.inr (by rw [classifyHead, if_pos h])
  · exact Or.inl (by rw [classifyHead, if_neg h])

/-- C8: a character outside the fixed vocabulary makes the pass fail with
the vocabulary error before any tensor computation: the result of the
forward front is the error for every embedding matrix and positional
encoding, so no arithmetic on the weights can have influenced it. -/
theorem vocab_error_before_tensors (pe : ℕ → ℕ → ℚ) (embed : List (List ℚ))
    (mol : List Char) (c : Char) (hc : c ∈ mol) (hx : charToIx c = none) :
    forwardFront pe embed mol = Except.error vocabMsg := by
  rw [forwardFront, encodeTokens_error mol c hc hx]

/-- C8 witness: the exclamation mark is not in the vocabulary; the pass on
the two-character input fails with the vocabulary error. -/
theorem vocab_error_before_tensors_witness :
    forwardFront peConst [[1]] (['C', '!']) = Except.error vocabMsg :=
  vocab_error_before_tensors peConst [[1]] ['C', '!'] '!' (by decide) (by decide)

/-- C10: every padding position i with N <= i < N + CONV_OFFSET carries
token index 0, index 0 of the vocabulary is the space character, the
positional-encoding row of a padding position is all zeros, and hence the
padding row of the input embedding tensor equals the embedding vector of
the space character. -/
theorem padding_rows_space_embedding (embed : List (List ℚ)) (pe : ℕ → ℕ → ℚ)
    (toks : List ℕ) (N i : ℕ) (hN : toks.length = N) (h1 : N ≤ i)
    (h2 : i < N + CONV_OFFSET) (hlen : (embed.getD 0 []).length = EMBEDDING_SIZE) :
    (xIndices toks).getD i 0 = 0 ∧ chars.getD 0 'X' = ' '
      ∧ posRow pe N i = List.replicate EMBEDDING_SIZE 0
      ∧ smilesEmbedRow embed pe toks N i = embed.getD 0 [] := by
  have hx0 : (xIndices toks).getD i 0 = 0 := by
    have hle : toks.length ≤ i := by omega
    rw [xIndices, List.getD_append_right _ _ _ _ hle]
    exact getD_replicate_zero _ _
  have hpos : posRow pe N i = List.replicate EMBEDDING_SIZE 0 := by
    rw [posRow,
      List.map_congr_left (fun kk _ => if_neg (by omega : ¬ i < N)),
      map_const_zero_range]
  refine ⟨hx0, by decide, hpos, ?_⟩
  rw [smilesEmbedRow, hx0, hpos, ← hlen]
  exact zipWith_add_replicate _

/-- C10 witness: a one-token input, padding position 1, a concrete embedding
matrix whose space row is the constant 2 vector. -/
theorem padding_rows_space_embedding_witness :
    (xIndices [3]).getD 1 0 = 0 ∧ chars.getD 0 'X' = ' '
      ∧ posRow peConst 1 1 = List.replicate EMBEDDING_SIZE 0
      ∧ smilesEmbedRow [List.replicate 64 (2 : ℚ)] peConst [3] 1 1
        = [List.replicate 64 (2 : ℚ)].getD 0 [] :=
  padding_rows_space_embedding [List.replicate 64 (2 : ℚ)] peConst [3] 1 1
    (by decide) (by decide) (by decide) (by simp [EMBEDDING_SIZE])

end TransformerCNN
